import Mathlib

/-!
Verification of the zirunbi simulated-trading ledger.

The Python sources are shallowly embedded: floats become rationals (ℚ),
Python dicts become association lists with insertion-order semantics,
fallible operations return `Option`/`Except`.  Each definition is
translated from the corresponding source function; theorems below settle
the specification's claims about them.
-/

/-! ## Leaderboard utilities (src/leaderboard.py) -/

/-- `_clamp_top_n` from src/leaderboard.py: `max(1, min(50, int(top_n)))`. -/
def clampTopN (top_n : ℤ) : ℤ :=
  max 1 (min 50 top_n)

/-- `cooldown_allow` from src/leaderboard.py.  `last_ts` is `None` or a
timestamp; a non-positive cooldown always allows, a missing last timestamp
always allows, otherwise allowed iff `now - last >= cooldown`. -/
def cooldown_allow (last_ts : Option ℚ) (now_ts : ℚ) (cooldown_seconds : ℤ) : Bool :=
  if cooldown_seconds ≤ 0 then true
  else
    match last_ts with
    | none => true
    | some l => decide ((now_ts - l) ≥ (cooldown_seconds : ℚ))

/-! ## Order execution gate (src/web_server.py, `trade`) -/

inductive PyOrderType where
  | buy
  | sell
deriving DecidableEq, Repr

inductive PyOrderStatus where
  | pending
  | filled
  | cancelled
deriving DecidableEq, Repr

/-- One row of the `orders` table as created by the gate. -/
structure OrderRow where
  user_id : String
  symbol : String
  order_type : PyOrderType
  price : Option ℚ
  amount : ℚ
  status : PyOrderStatus
deriving DecidableEq, Repr

/-- The stored ledger state visible to the `trade` endpoint: user balances,
holding rows `(user_id, symbol, amount)`, and order rows. -/
structure TradeState where
  users : List (String × ℚ)
  holdings : List (String × String × ℚ)
  orders : List OrderRow
deriving DecidableEq, Repr

/-- The external `Market` collaborator, at the boundary the spec describes:
`is_open`, the tradable `symbols`, and `prices` (total on symbols; modelled
as a total function). -/
structure MarketView where
  is_open : Bool
  symbols : List String
  prices : String → ℚ

inductive TradeErr where
  | marketClosed
  | userNotFound
  | invalidSymbol
  | nonPositiveAmount
  /-- `Insufficient balance. Need {cost:.2f}`: carries the reported number. -/
  | insufficientBalance (need : ℚ)
  | insufficientHolding
  | invalidAction
deriving DecidableEq, Repr

/-- `str.upper()`: uppercase each character.  (`String.toUpper` itself is
defined by well-founded recursion on positions, which the kernel cannot
evaluate; mapping over the character list is the same function.) -/
def pyUpper (s : String) : String := ⟨s.data.map Char.toUpper⟩

/-- First-match lookup in an association list keyed by strings.  Models both
`filter_by(...).first()` queries and Python dict lookup (keys are unique in
every dict we build, so first-match agrees with dict semantics). -/
def lookupKey {α : Type} : List (String × α) → String → Option α
  | [], _ => none
  | p :: rest, k => if p.1 = k then some p.2 else lookupKey rest k

/-- `session.query(UserHolding).filter_by(user_id=..., symbol=...).first()`:
the first holding row matching both keys. -/
def lookupHolding : List (String × String × ℚ) → String → String → Option ℚ
  | [], _, _ => none
  | r :: rest, uid, sym =>
    if r.1 = uid ∧ r.2.1 = sym then some r.2.2 else lookupHolding rest uid sym

/-- Line 149 of src/web_server.py: `data.price if data.price else
market.prices[symbol]`.  Python truthiness: `None` and `0.0` are falsy. -/
def estPrice (price : Option ℚ) (marketPrice : ℚ) : ℚ :=
  match price with
  | some p => if p = 0 then marketPrice else p
  | none => marketPrice

/-- The estimated cost of a buy: `est_price * data.amount * 1.001`. -/
def estCost (price : Option ℚ) (marketPrice amount : ℚ) : ℚ :=
  estPrice price marketPrice * amount * mkRat 1001 1000

/-- The `trade` endpoint of src/web_server.py, up to the point where the
PENDING order row is persisted (settlement by `market.match_single_order`
belongs to the external matcher).  Returns the resulting state paired with
the outcome; every rejection leaves the state unchanged, because in the
source the corresponding `HTTPException` is raised before `session.add`. -/
def trade (mkt : MarketView) (st : TradeState) (user_id symbol0 : String)
    (amount : ℚ) (price : Option ℚ) (action : String) :
    TradeState × Except TradeErr Unit :=
  if mkt.is_open = false then (st, .error .marketClosed)
  else
    match lookupKey st.users user_id with
    | none => (st, .error .userNotFound)
    | some balance =>
      let symbol := pyUpper symbol0
      if symbol ∉ mkt.symbols then (st, .error .invalidSymbol)
      else if amount ≤ 0 then (st, .error .nonPositiveAmount)
      else if action = "buy" then
        let cost := estCost price (mkt.prices symbol) amount
        if balance < cost then (st, .error (.insufficientBalance cost))
        else
          (⟨st.users, st.holdings,
            st.orders ++ [⟨user_id, symbol, .buy, price, amount, .pending⟩]⟩,
           .ok ())
      else if action = "sell" then
        match lookupHolding st.holdings user_id symbol with
        | none => (st, .error .insufficientHolding)
        | some held =>
          if held < amount then (st, .error .insufficientHolding)
          else
            (⟨st.users, st.holdings,
              st.orders ++ [⟨user_id, symbol, .sell, price, amount, .pending⟩]⟩,
             .ok ())
      else (st, .error .invalidAction)

/-- The spec's wording of the reference price for C1, for comparison with
the source's `estPrice`: "the supplied limit price if present, else the
external market's current price". -/
def refPriceSpec (price : Option ℚ) (marketPrice : ℚ) : ℚ :=
  match price with
  | some p => p
  | none => marketPrice

/-! ## Schema migration (src/database.py, `DB._migrate`) -/

/-- The live schema as the migration observes it: the column lists of the
tables it inspects (`PRAGMA table_info`) and the names of existing indexes. -/
structure Schema where
  orders_cols : List String
  market_history_cols : List String
  users_cols : List String
  index_names : List String
deriving DecidableEq, Repr

/-- The `column_exists` check followed by `ALTER TABLE ... ADD COLUMN`,
guarded: the column is added only if absent. -/
def addColumnIfAbsent (cols : List String) (c : String) : List String :=
  if c ∈ cols then cols else cols ++ [c]

/-- `CREATE INDEX IF NOT EXISTS name ...`: SQLite checks the index name. -/
def createIndexIfAbsent (idxs : List String) (name : String) : List String :=
  if name ∈ idxs then idxs else idxs ++ [name]

/-- The `index_definitions` list of src/database.py (names only; the table
and column text does not influence the if-absent check). -/
def indexDefinitions : List String :=
  ["ix_market_history_symbol_ts", "ix_orders_user_status",
   "ix_orders_user_created", "ix_user_holdings_user_symbol",
   "ix_market_news_timestamp"]

/-- `DB._migrate`: add the three known columns if absent, then create each
known index with if-absent semantics. -/
def migrate (s : Schema) : Schema :=
  { orders_cols := addColumnIfAbsent s.orders_cols "symbol"
    market_history_cols := addColumnIfAbsent s.market_history_cols "symbol"
    users_cols := addColumnIfAbsent s.users_cols "password_hash"
    index_names := indexDefinitions.foldl createIndexIfAbsent s.index_names }

/-! ## Leaderboard computation (src/leaderboard.py, `compute_leaderboard`) -/

/-- One aggregate record of `by_user` / one entry of the returned list. -/
structure LEntry where
  user_id : String
  balance : ℚ
  holdings_value : ℚ
  total : ℚ
  missing_symbols : List String
deriving DecidableEq, Repr

/-- The `by_user` dict: association list with unique keys, insertion order. -/
abbrev UserMap := List (String × LEntry)

/-- Python dict assignment `m[k] = v`: replace in place if the key exists,
else append at the end. -/
def dictSet (m : UserMap) (k : String) (v : LEntry) : UserMap :=
  match m with
  | [] => [(k, v)]
  | p :: rest => if p.1 = k then (k, v) :: rest else p :: dictSet rest k v

/-- A `set.add`: append only if absent (final rendering sorts, so list order
never shows). -/
def addMissing (l : List String) (s : String) : List String :=
  if s ∈ l then l else l ++ [s]

/-- The seeded aggregate for one `(user_id, balance)` row. -/
def seedEntry (uid : String) (bal : ℚ) : LEntry :=
  { user_id := uid, balance := bal, holdings_value := 0, total := bal
    missing_symbols := [] }

/-- The first loop of `compute_leaderboard`: seed one record per user. -/
def seedUsers (users : List (String × ℚ)) : UserMap :=
  users.foldl (fun m ub => dictSet m ub.1 (seedEntry ub.1 ub.2)) []

/-- The dust epsilon `0.0001` of src/leaderboard.py line 53. -/
def dustEps : ℚ := mkRat 1 10000

/-- Python `abs` on a rational. -/
def pyAbs (q : ℚ) : ℚ := if q < 0 then -q else q

/-- The body of the holdings loop of `compute_leaderboard` for one
`(user_id, symbol, amount)` row: skip unknown users, skip dust quantities,
price absent symbols at 0 while recording them in `missing_symbols`, and
accumulate `holdings_value` and `total`. -/
def processHolding (prices : List (String × ℚ)) (m : UserMap)
    (row : String × String × ℚ) : UserMap :=
  match lookupKey m row.1 with
  | none => m
  | some e =>
    if row.2.2 ≤ 0 ∨ pyAbs row.2.2 ≤ dustEps then m
    else
      match lookupKey prices row.2.1 with
      | some p =>
        dictSet m row.1
          { user_id := e.user_id, balance := e.balance
            holdings_value := e.holdings_value + row.2.2 * p
            total := e.balance + (e.holdings_value + row.2.2 * p)
            missing_symbols := e.missing_symbols }
      | none =>
        dictSet m row.1
          { user_id := e.user_id, balance := e.balance
            holdings_value := e.holdings_value + row.2.2 * 0
            total := e.balance + (e.holdings_value + row.2.2 * 0)
            missing_symbols := addMissing e.missing_symbols row.2.1 }

/-- The sort key of line 70: `(-total, user_id)` compared lexicographically;
`entryLE a b` says `a` may come before `b`. -/
def entryLE (a b : LEntry) : Prop :=
  b.total < a.total ∨ (a.total = b.total ∧ a.user_id ≤ b.user_id)

instance : DecidableRel entryLE := by
  intro a b
  unfold entryLE
  infer_instance

/-- `sorted(missing)` applied to a finished entry (lines 73-75). -/
def finalizeEntry (e : LEntry) : LEntry :=
  { user_id := e.user_id, balance := e.balance
    holdings_value := e.holdings_value, total := e.total
    missing_symbols := e.missing_symbols.insertionSort (· ≤ ·) }

/-- `compute_leaderboard` of src/leaderboard.py: seed per-user records,
fold in the holdings, sort by `(-total, user_id)`, truncate to the clamped
`top_n`, and sort each entry's missing-symbol set. -/
def compute_leaderboard (users : List (String × ℚ))
    (holdings : List (String × String × ℚ)) (prices : List (String × ℚ))
    (top_n : ℤ) : List LEntry :=
  let limit := clampTopN top_n
  let m := holdings.foldl (processHolding prices) (seedUsers users)
  let entries := (m.map Prod.snd).insertionSort entryLE
  (entries.take limit.toNat).map finalizeEntry

/-! ## Trigger regex (src/leaderboard.py, `compile_trigger_regex`)

The Python `re` standard-library module is not part of this repository, so
it is modelled here by a quantifier-free fragment of its syntax: anchors,
`.`, escapes, literal characters, and (non-capturing, flattened) groups.
Patterns outside the fragment — quantifiers, classes, alternation — and
ill-formed patterns such as unbalanced parentheses are compile errors in
the model, mirroring that `re.compile` is fallible. -/

/-- One node of a compiled pattern in the modelled fragment. -/
inductive RNode where
  /-- `$`: end of string, or just before a trailing newline. -/
  | dollar
  /-- `^`: start of string. -/
  | caret
  /-- `.`: any character except newline. -/
  | dot
  /-- a literal character. -/
  | lit (c : Char)
deriving DecidableEq, Repr

/-- A compiled pattern is a sequence of nodes. -/
abbrev PyRegex := List RNode

/-- `NON_MATCHING_REGEX = re.compile(r"$.^")` of src/leaderboard.py. -/
def NON_MATCHING_REGEX : PyRegex := [.dollar, .dot, .caret]

/-- Try to match the node list at position `p` of `s`; `some q` is the
position after the match. -/
def matchSeq (s : List Char) : PyRegex → ℕ → Option ℕ
  | [], p => some p
  | .dollar :: rest, p =>
    if p = s.length ∨ (p + 1 = s.length ∧ s.getD p ' ' = '\n')
    then matchSeq s rest p else none
  | .caret :: rest, p =>
    if p = 0 then matchSeq s rest p else none
  | .dot :: rest, p =>
    if p < s.length ∧ s.getD p ' ' ≠ '\n' then matchSeq s rest (p + 1) else none
  | .lit c :: rest, p =>
    if p < s.length ∧ s.getD p ' ' = c then matchSeq s rest (p + 1) else none

/-- `pattern.search(s)`: does the pattern match starting at some position? -/
def regexSearch (r : PyRegex) (s : String) : Bool :=
  (List.range (s.data.length + 1)).any fun p => (matchSeq s.data r p).isSome

/-- Modelled from the spec: `re.compile` on the quantifier-free fragment
(the `re` module is outside this repository's sources).  Tracks parenthesis
depth; `none` is a compile error (`re.error`). -/
def reCompileAux : List Char → ℕ → Option PyRegex
  | [], 0 => some []
  | [], _ + 1 => none
  | c :: rest, d =>
    if c = '(' then reCompileAux rest (d + 1)
    else if c = ')' then
      match d with
      | 0 => none
      | d' + 1 => reCompileAux rest d'
    else if c = '*' ∨ c = '+' ∨ c = '?' ∨ c = '[' ∨ c = ']' ∨ c = '|'
        ∨ c = '\x7b' ∨ c = '\x7d' then none
    else if c = '\\' then
      match rest with
      | [] => none
      | e :: rest' => (reCompileAux rest' d).map (fun r => .lit e :: r)
    else
      let node : RNode :=
        if c = '$' then .dollar else if c = '^' then .caret
        else if c = '.' then .dot else .lit c
      (reCompileAux rest d).map (fun r => node :: r)

/-- Python `str.strip()`: drop whitespace from both ends.  (Defined over
the character list; `String.trim` is defined through position-indexed
auxiliaries the kernel cannot evaluate.) -/
def pyStrip (s : String) : String :=
  ⟨((s.data.dropWhile Char.isWhitespace).reverse.dropWhile Char.isWhitespace).reverse⟩

/-- `re.compile(text)` in the model. -/
def reCompile (text : String) : Option PyRegex :=
  reCompileAux text.data 0

/-- `compile_trigger_regex` of src/leaderboard.py: normalize `None` to `""`,
strip, return the match-nothing pattern on empty input, and degrade any
compile error to the match-nothing pattern instead of raising. -/
def compile_trigger_regex (pattern : Option String) : PyRegex :=
  let text := pyStrip (pattern.getD "")
  if text = "" then NON_MATCHING_REGEX
  else
    match reCompile text with
    | some r => r
    | none => NON_MATCHING_REGEX

instance : DecidableEq (Except TradeErr Unit) := fun
  | .error a, .error b => decidable_of_iff (a = b) (by simp)
  | .ok a, .ok b => decidable_of_iff (a = b) (by simp)
  | .error _, .ok _ => isFalse (by simp)
  | .ok _, .error _ => isFalse (by simp)

instance : IsTotal LEntry entryLE := ⟨by
  intro a b
  unfold entryLE
  rcases lt_trichotomy a.total b.total with h | h | h
  · exact Or.inr (Or.inl h)
  · rcases le_total a.user_id b.user_id with hu | hu
    · exact Or.inl (Or.inr ⟨h, hu⟩)
    · exact Or.inr (Or.inr ⟨h.symm, hu⟩)
  · exact Or.inl (Or.inl h)⟩

instance : IsTrans LEntry entryLE := ⟨by
  intro a b c hab hbc
  unfold entryLE at *
  rcases hab with h1 | ⟨h1, h1u⟩ <;> rcases hbc with h2 | ⟨h2, h2u⟩
  · exact Or.inl (h2.trans h1)
  · exact Or.inl (by rw [← h2]; exact h1)
  · exact Or.inl (by rw [h1]; exact h2)
  · exact Or.inr ⟨h1.trans h2, le_trans h1u h2u⟩⟩

/-! ## Helper lemmas -/

theorem addColumnIfAbsent_mem (cols : List String) (c : String) :
    c ∈ addColumnIfAbsent cols c := by
  unfold addColumnIfAbsent
  split
  · assumption
  · simp

theorem addColumnIfAbsent_of_mem {cols : List String} {c : String}
    (h : c ∈ cols) : addColumnIfAbsent cols c = cols := by
  simp [addColumnIfAbsent, h]

theorem addColumnIfAbsent_idem (cols : List String) (c : String) :
    addColumnIfAbsent (addColumnIfAbsent cols c) c = addColumnIfAbsent cols c :=
  addColumnIfAbsent_of_mem (addColumnIfAbsent_mem cols c)

theorem addColumnIfAbsent_nodup {cols : List String} {c : String}
    (h : cols.Nodup) : (addColumnIfAbsent cols c).Nodup := by
  unfold addColumnIfAbsent
  split
  · exact h
  · simpa [List.nodup_append] using ⟨h, by assumption⟩

theorem createIndexIfAbsent_mono {idxs : List String} {a b : String}
    (h : a ∈ idxs) : a ∈ createIndexIfAbsent idxs b := by
  unfold createIndexIfAbsent
  split
  · exact h
  · exact List.mem_append_left _ h

theorem createIndexIfAbsent_mem (idxs : List String) (a : String) :
    a ∈ createIndexIfAbsent idxs a := by
  unfold createIndexIfAbsent
  split
  · assumption
  · simp

theorem createIndexIfAbsent_of_mem {idxs : List String} {a : String}
    (h : a ∈ idxs) : createIndexIfAbsent idxs a = idxs := by
  simp [createIndexIfAbsent, h]

theorem createIndexIfAbsent_nodup {idxs : List String} {a : String}
    (h : idxs.Nodup) : (createIndexIfAbsent idxs a).Nodup := by
  unfold createIndexIfAbsent
  split
  · exact h
  · simpa [List.nodup_append] using ⟨h, by assumption⟩

theorem migrateIndexes_mem (idxs : List String) :
    ∀ name ∈ indexDefinitions, name ∈ indexDefinitions.foldl createIndexIfAbsent idxs := by
  intro name hname
  simp only [indexDefinitions, List.mem_cons, List.not_mem_nil, or_false] at hname
  simp only [indexDefinitions, List.foldl]
  rcases hname with rfl | rfl | rfl | rfl | rfl
  all_goals
    repeat first
      | exact createIndexIfAbsent_mem _ _
      | apply createIndexIfAbsent_mono

theorem migrateIndexes_idem (idxs : List String) :
    indexDefinitions.foldl createIndexIfAbsent
      (indexDefinitions.foldl createIndexIfAbsent idxs) =
    indexDefinitions.foldl createIndexIfAbsent idxs := by
  have hmem := migrateIndexes_mem idxs
  simp only [indexDefinitions, List.foldl] at hmem ⊢
  rw [createIndexIfAbsent_of_mem (hmem _ (by simp [indexDefinitions]))]
  rw [createIndexIfAbsent_of_mem (hmem _ (by simp [indexDefinitions]))]
  rw [createIndexIfAbsent_of_mem (hmem _ (by simp [indexDefinitions]))]
  rw [createIndexIfAbsent_of_mem (hmem _ (by simp [indexDefinitions]))]
  rw [createIndexIfAbsent_of_mem (hmem _ (by simp [indexDefinitions]))]

theorem migrateIndexes_nodup {idxs : List String} (h : idxs.Nodup) :
    (indexDefinitions.foldl createIndexIfAbsent idxs).Nodup := by
  simp only [indexDefinitions, List.foldl]
  repeat apply createIndexIfAbsent_nodup
  exact h

theorem foldl_invariant {α β : Type} (P : α → Prop) (f : α → β → α)
    (l : List β) (init : α) (hinit : P init)
    (hstep : ∀ s x, x ∈ l → P s → P (f s x)) : P (l.foldl f init) := by
  induction l generalizing init with
  | nil => exact hinit
  | cons x xs ih =>
    simp only [List.foldl_cons]
    exact ih (f init x) (hstep init x (by simp) hinit)
      (fun s y hy hs => hstep s y (by simp [hy]) hs)

theorem lookupKey_dictSet (m : UserMap) (k : String) (v : LEntry) (q : String) :
    lookupKey (dictSet m k v) q = if q = k then some v else lookupKey m q := by
  induction m with
  | nil =>
    by_cases h : q = k
    · subst h; simp [dictSet, lookupKey]
    · simp [dictSet, lookupKey, h, Ne.symm h]
  | cons p rest ih =>
    unfold dictSet
    by_cases hp : p.1 = k
    · simp only [if_pos hp]
      by_cases hq : q = k
      · subst hq; simp [lookupKey]
      · simp only [lookupKey, if_neg (fun h : k = q => hq h.symm), if_neg hq]
        rw [if_neg (fun h : p.1 = q => hq (h.symm.trans hp))]
    · simp only [if_neg hp]
      by_cases hq : p.1 = q
      · have hqk : ¬ q = k := fun h => hp (hq.trans h)
        rw [lookupKey, if_pos hq, if_neg hqk, lookupKey, if_pos hq]
      · simp only [lookupKey, if_neg hq]
        exact ih

theorem mem_dictSet {m : UserMap} {k : String} {v : LEntry} {p : String × LEntry}
    (h : p ∈ dictSet m k v) : p = (k, v) ∨ p ∈ m := by
  induction m with
  | nil => simp [dictSet] at h; simp [h]
  | cons q rest ih =>
    unfold dictSet at h
    by_cases hq : q.1 = k
    · simp only [if_pos hq, List.mem_cons] at h
      rcases h with h | h
      · exact Or.inl h
      · exact Or.inr (List.mem_cons_of_mem _ h)
    · simp only [if_neg hq, List.mem_cons] at h
      rcases h with h | h
      · exact Or.inr (h ▸ List.mem_cons_self _ _)
      · rcases ih h with h | h
        · exact Or.inl h
        · exact Or.inr (List.mem_cons_of_mem _ h)

theorem keys_mem_dictSet {m : UserMap} {k : String} {v : LEntry} {a : String}
    (h : a ∈ (dictSet m k v).map Prod.fst) : a = k ∨ a ∈ m.map Prod.fst := by
  rcases List.mem_map.mp h with ⟨p, hp, rfl⟩
  rcases mem_dictSet hp with h | h
  · exact Or.inl (by rw [h])
  · exact Or.inr (List.mem_map_of_mem _ h)

theorem nodup_keys_dictSet {m : UserMap} {k : String} {v : LEntry}
    (h : (m.map Prod.fst).Nodup) : ((dictSet m k v).map Prod.fst).Nodup := by
  induction m with
  | nil => simp [dictSet]
  | cons q rest ih =>
    simp only [List.map_cons, List.nodup_cons] at h
    unfold dictSet
    by_cases hq : q.1 = k
    · simp only [if_pos hq, List.map_cons, List.nodup_cons]
      exact ⟨hq ▸ h.1, h.2⟩
    · simp only [if_neg hq, List.map_cons, List.nodup_cons]
      refine ⟨fun hmem => ?_, ih h.2⟩
      rcases keys_mem_dictSet hmem with h' | h'
      · exact hq h'
      · exact h.1 h'

theorem lookupKey_mem {α : Type} {m : List (String × α)} {k : String} {v : α}
    (h : lookupKey m k = some v) : (k, v) ∈ m := by
  induction m with
  | nil => simp [lookupKey] at h
  | cons p rest ih =>
    unfold lookupKey at h
    by_cases hp : p.1 = k
    · rw [if_pos hp] at h
      cases h
      exact hp ▸ List.mem_cons_self _ _
    · rw [if_neg hp] at h
      exact List.mem_cons_of_mem _ (ih h)

theorem lookupKey_of_mem_nodup {α : Type} {m : List (String × α)} {k : String} {v : α}
    (hnd : (m.map Prod.fst).Nodup) (h : (k, v) ∈ m) : lookupKey m k = some v := by
  induction m with
  | nil => cases h
  | cons p rest ih =>
    simp only [List.map_cons, List.nodup_cons] at hnd
    rcases List.mem_cons.mp h with h | h
    · rw [← h]
      simp [lookupKey]
    · have hk : k ∈ rest.map Prod.fst := List.mem_map_of_mem _ h
      have hp : p.1 ≠ k := fun he => hnd.1 (he ▸ hk)
      simp only [lookupKey, if_neg hp]
      exact ih hnd.2 h

theorem seedUsers_userid (users : List (String × ℚ)) :
    ∀ p ∈ seedUsers users, p.2.user_id = p.1 := by
  unfold seedUsers
  refine foldl_invariant (fun m : UserMap => ∀ p ∈ m, p.2.user_id = p.1)
    _ users [] (by simp) ?_
  intro s x _ hs p hp
  rcases mem_dictSet hp with h | h
  · rw [h]
    simp [seedEntry]
  · exact hs p h

theorem seedUsers_nodup_keys (users : List (String × ℚ)) :
    ((seedUsers users).map Prod.fst).Nodup := by
  unfold seedUsers
  refine foldl_invariant (fun m : UserMap => (m.map Prod.fst).Nodup)
    _ users [] (by simp) ?_
  intro s x _ hs
  exact nodup_keys_dictSet hs

theorem seedUsers_lookup_total (users : List (String × ℚ)) :
    ∀ k e, lookupKey (seedUsers users) k = some e →
      e.total = e.balance ∧ e.holdings_value = 0 := by
  unfold seedUsers
  refine foldl_invariant
    (fun m : UserMap =>
      ∀ k e, lookupKey m k = some e → e.total = e.balance ∧ e.holdings_value = 0)
    _ users [] (by simp [lookupKey]) ?_
  intro s x _ hs k e h
  rw [lookupKey_dictSet] at h
  by_cases hk : k = x.1
  · rw [if_pos hk] at h
    cases h
    simp [seedEntry]
  · rw [if_neg hk] at h
    exact hs k e h

theorem processHolding_userid (prices : List (String × ℚ)) (m : UserMap)
    (row : String × String × ℚ) (h : ∀ p ∈ m, p.2.user_id = p.1) :
    ∀ p ∈ processHolding prices m row, p.2.user_id = p.1 := by
  unfold processHolding
  split
  · exact h
  · rename_i e hl
    split
    · exact h
    · split <;>
      · intro p hp
        rcases mem_dictSet hp with hp' | hp'
        · rw [hp']
          exact h (row.1, e) (lookupKey_mem hl)
        · exact h p hp'

theorem processHolding_nodup_keys (prices : List (String × ℚ)) (m : UserMap)
    (row : String × String × ℚ) (h : (m.map Prod.fst).Nodup) :
    ((processHolding prices m row).map Prod.fst).Nodup := by
  unfold processHolding
  split
  · exact h
  · split
    · exact h
    · split <;> exact nodup_keys_dictSet h

theorem processHolding_dust (prices : List (String × ℚ)) (m : UserMap)
    (row : String × String × ℚ) (h : row.2.2 ≤ 0 ∨ pyAbs row.2.2 ≤ dustEps) :
    processHolding prices m row = m := by
  unfold processHolding
  split
  · rfl
  · rw [if_pos h]

theorem processHolding_other (prices : List (String × ℚ)) (m : UserMap)
    (row : String × String × ℚ) (uid : String) (h : row.1 ≠ uid) :
    lookupKey (processHolding prices m row) uid = lookupKey m uid := by
  unfold processHolding
  split
  · rfl
  · split
    · rfl
    · split <;> rw [lookupKey_dictSet, if_neg (fun he => h he.symm)]

theorem foldl_processHolding_lookup (prices : List (String × ℚ))
    (holdings : List (String × String × ℚ)) (m : UserMap) (uid : String)
    (h : ∀ row ∈ holdings, row.1 = uid → row.2.2 ≤ 0 ∨ pyAbs row.2.2 ≤ dustEps) :
    lookupKey (holdings.foldl (processHolding prices) m) uid = lookupKey m uid := by
  induction holdings generalizing m with
  | nil => rfl
  | cons row rest ih =>
    simp only [List.foldl_cons]
    rw [ih (processHolding prices m row) (fun r hr => h r (List.mem_cons_of_mem _ hr))]
    by_cases hr : row.1 = uid
    · rw [processHolding_dust prices m row (h row (List.mem_cons_self _ _) hr)]
    · exact processHolding_other prices m row uid hr

theorem mem_addMissing_self (l : List String) (s : String) : s ∈ addMissing l s := by
  unfold addMissing
  split
  · assumption
  · simp

/-! ## Claim theorems -/

/-- C6: `_clamp_top_n` is idempotent, its result lies in the inclusive
range [1, 50], and at the bounds `_clamp_top_n 0 = 1` and
`_clamp_top_n 1000 = 50`. -/
theorem clampTopN_idempotent_bounds (n : ℤ) :
    clampTopN (clampTopN n) = clampTopN n ∧
    1 ≤ clampTopN n ∧ clampTopN n ≤ 50 ∧
    clampTopN 0 = 1 ∧ clampTopN 1000 = 50 := by
  unfold clampTopN
  omega

unseal Rat.add Rat.sub in
/-- C7: `cooldown_allow` returns true whenever the cooldown is
non-positive, returns true whenever the last-action timestamp is missing,
and otherwise returns true iff `now - last ≥ cooldown`; includes the three
concrete examples of the spec. -/
theorem cooldown_allow_spec (last : Option ℚ) (now : ℚ) (cd : ℤ) :
    (cd ≤ 0 → cooldown_allow last now cd = true) ∧
    (last = none → cooldown_allow last now cd = true) ∧
    (0 < cd → ∀ l, last = some l →
      (cooldown_allow last now cd = true ↔ (cd : ℚ) ≤ now - l)) ∧
    cooldown_allow none 100 30 = true ∧
    cooldown_allow (some 90) 100 30 = false ∧
    cooldown_allow (some 50) 100 30 = true := by
  refine ⟨?_, ?_, ?_, by decide, by decide, by decide⟩
  · intro h; simp [cooldown_allow, h]
  · intro h; subst h; unfold cooldown_allow; split <;> rfl
  · intro hcd l hl
    subst hl
    unfold cooldown_allow
    rw [if_neg (by omega)]
    simp [ge_iff_le]

unseal Rat.sub in
/-- Witness for C7 at last 50, now 100, cooldown 30. -/
theorem cooldown_allow_spec_witness :
    (0 : ℤ) < 30 ∧ ((30 : ℤ) : ℚ) ≤ 100 - 50 ∧ cooldown_allow (some 50) 100 30 = true :=
  ⟨by decide, by decide,
   ((cooldown_allow_spec (some 50) 100 30).2.2.1 (by decide) 50 rfl).mpr (by decide)⟩

/-- C2: `DB._migrate` is idempotent on the schema: each known column is
added only if absent (a present column leaves the table unchanged), each
index is created if-absent, a second run changes nothing, and no duplicate
columns or indexes appear (the guards also mean no erroring duplicate ALTER
is ever issued on a second run). -/
theorem migrate_idempotent (s : Schema) :
    migrate (migrate s) = migrate s ∧
    ("symbol" ∈ s.orders_cols → (migrate s).orders_cols = s.orders_cols) ∧
    ("symbol" ∈ s.market_history_cols → (migrate s).market_history_cols = s.market_history_cols) ∧
    ("password_hash" ∈ s.users_cols → (migrate s).users_cols = s.users_cols) ∧
    ((∀ n ∈ indexDefinitions, n ∈ s.index_names) → (migrate s).index_names = s.index_names) ∧
    (s.orders_cols.Nodup → (migrate s).orders_cols.Nodup) ∧
    (s.market_history_cols.Nodup → (migrate s).market_history_cols.Nodup) ∧
    (s.users_cols.Nodup → (migrate s).users_cols.Nodup) ∧
    (s.index_names.Nodup → (migrate s).index_names.Nodup) := by
  refine ⟨?_, ?_, ?_, ?_, ?_, ?_, ?_, ?_, ?_⟩
  · simp [migrate, Schema.mk.injEq, addColumnIfAbsent_idem, migrateIndexes_idem]
  · intro h; simp [migrate, addColumnIfAbsent_of_mem h]
  · intro h; simp [migrate, addColumnIfAbsent_of_mem h]
  · intro h; simp [migrate, addColumnIfAbsent_of_mem h]
  · intro h
    simp only [migrate, indexDefinitions, List.foldl]
    rw [createIndexIfAbsent_of_mem (h _ (by simp [indexDefinitions]))]
    rw [createIndexIfAbsent_of_mem (h _ (by simp [indexDefinitions]))]
    rw [createIndexIfAbsent_of_mem (h _ (by simp [indexDefinitions]))]
    rw [createIndexIfAbsent_of_mem (h _ (by simp [indexDefinitions]))]
    rw [createIndexIfAbsent_of_mem (h _ (by simp [indexDefinitions]))]
  · intro h; simp only [migrate]; exact addColumnIfAbsent_nodup h
  · intro h; simp only [migrate]; exact addColumnIfAbsent_nodup h
  · intro h; simp only [migrate]; exact addColumnIfAbsent_nodup h
  · intro h; simp only [migrate]; exact migrateIndexes_nodup h

/-- Witness for C2 at a schema that already has every known column and
index. -/
theorem migrate_idempotent_witness :
    migrate (migrate (Schema.mk ["symbol"] ["symbol"] ["password_hash"] indexDefinitions))
      = migrate (Schema.mk ["symbol"] ["symbol"] ["password_hash"] indexDefinitions) ∧
    (migrate (Schema.mk ["symbol"] ["symbol"] ["password_hash"] indexDefinitions)).orders_cols = ["symbol"] ∧
    (migrate (Schema.mk ["symbol"] ["symbol"] ["password_hash"] indexDefinitions)).market_history_cols = ["symbol"] ∧
    (migrate (Schema.mk ["symbol"] ["symbol"] ["password_hash"] indexDefinitions)).users_cols = ["password_hash"] ∧
    (migrate (Schema.mk ["symbol"] ["symbol"] ["password_hash"] indexDefinitions)).index_names = indexDefinitions ∧
    (migrate (Schema.mk ["symbol"] ["symbol"] ["password_hash"] indexDefinitions)).index_names.Nodup :=
  ⟨(migrate_idempotent _).1,
   (migrate_idempotent _).2.1 (by decide),
   (migrate_idempotent _).2.2.1 (by decide),
   (migrate_idempotent _).2.2.2.1 (by decide),
   (migrate_idempotent _).2.2.2.2.1 (by decide),
   (migrate_idempotent _).2.2.2.2.2.2.2.2 (by decide)⟩

/-- C8: `compile_trigger_regex` never raises: empty-after-stripping input
yields the match-nothing pattern, any pattern the compiler rejects yields
the same match-nothing pattern, and the match-nothing pattern matches no
string at any position. -/
theorem compile_trigger_regex_safe (pat : Option String) :
    (pyStrip (pat.getD "") = "" → compile_trigger_regex pat = NON_MATCHING_REGEX) ∧
    (reCompile (pyStrip (pat.getD "")) = none →
      compile_trigger_regex pat = NON_MATCHING_REGEX) ∧
    (∀ s, regexSearch NON_MATCHING_REGEX s = false) := by
  refine ⟨?_, ?_, ?_⟩
  · intro h; simp [compile_trigger_regex, h]
  · intro h
    by_cases ht : pyStrip (pat.getD "") = ""
    · simp [compile_trigger_regex, ht]
    · simp [compile_trigger_regex, ht, h]
  · intro s
    unfold regexSearch
    rw [List.any_eq_false]
    intro p _
    have hnone : matchSeq s.data NON_MATCHING_REGEX p = none := by
      unfold NON_MATCHING_REGEX matchSeq
      split
      · simp [matchSeq]
      · rfl
    simp [hnone]

/-- Witness for C8: whitespace-only and unbalanced-parenthesis patterns both
degrade to the match-nothing pattern, which rejects a concrete string. -/
theorem compile_trigger_regex_safe_witness :
    pyStrip ((some " ").getD "") = "" ∧
    compile_trigger_regex (some " ") = NON_MATCHING_REGEX ∧
    reCompile (pyStrip ((some "(").getD "")) = none ∧
    compile_trigger_regex (some "(") = NON_MATCHING_REGEX ∧
    regexSearch NON_MATCHING_REGEX "hello" = false :=
  ⟨by decide, (compile_trigger_regex_safe (some " ")).1 (by decide),
   by decide, (compile_trigger_regex_safe (some "(")).2.1 (by decide),
   (compile_trigger_regex_safe none).2.2 "hello"⟩

/-- C10: in the gate's buy check, a supplied limit price of 0 is falsy in
`data.price if data.price else market.prices[symbol]`, so the estimated
cost is computed from the external market's current price, and the gate's
outcome (acceptance or the exact rejection) is identical to the outcome
with no limit price supplied. -/
theorem trade_zero_price_market (mkt : MarketView) (st : TradeState)
    (uid sym0 : String) (amount : ℚ) (act : String) :
    estPrice (some 0) (mkt.prices (pyUpper sym0)) = mkt.prices (pyUpper sym0) ∧
    estCost (some 0) (mkt.prices (pyUpper sym0)) amount
      = estCost none (mkt.prices (pyUpper sym0)) amount ∧
    (trade mkt st uid sym0 amount (some 0) act).2
      = (trade mkt st uid sym0 amount none act).2 := by
  refine ⟨rfl, rfl, ?_⟩
  unfold trade
  by_cases h1 : mkt.is_open = false
  · simp [h1]
  · simp only [if_neg h1]
    cases hb : lookupKey st.users uid with
    | none => rfl
    | some bal =>
      simp only
      by_cases h2 : pyUpper sym0 ∉ mkt.symbols
      · simp [h2]
      · by_cases h3 : amount ≤ 0
        · simp [h2, h3]
        · by_cases h4 : act = "buy"
          · subst h4
            simp only [if_neg h2, if_neg h3, if_pos rfl]
            have hc : estCost (some 0) (mkt.prices (pyUpper sym0)) amount
                = estCost none (mkt.prices (pyUpper sym0)) amount := rfl
            rw [hc]
            by_cases hcost : bal < estCost none (mkt.prices (pyUpper sym0)) amount
            · simp [hcost]
            · simp [hcost]
          · by_cases h5 : act = "sell"
            · subst h5
              simp only [if_neg h2, if_neg h3,
                if_neg (by decide : ¬("sell" = "buy")), if_pos rfl]
              cases lookupHolding st.holdings uid (pyUpper sym0) with
              | none => rfl
              | some held =>
                by_cases hh : held < amount
                · simp [hh]
                · simp [hh]
            · simp [h2, h3, h4, h5]

/-- C9: a sell request whose holding row is absent, or holds less than the
requested amount, is rejected with "Insufficient holding" and the stored
state (balances, holdings, orders) is returned unchanged: no order row is
created. -/
theorem trade_sell_insufficient (mkt : MarketView) (st : TradeState)
    (uid sym0 : String) (amount : ℚ) (price : Option ℚ) (bal : ℚ)
    (hopen : mkt.is_open = true)
    (hbal : lookupKey st.users uid = some bal)
    (hsym : pyUpper sym0 ∈ mkt.symbols)
    (hamt : 0 < amount)
    (hhold : lookupHolding st.holdings uid (pyUpper sym0) = none ∨
      ∃ held, lookupHolding st.holdings uid (pyUpper sym0) = some held ∧ held < amount) :
    trade mkt st uid sym0 amount price "sell" = (st, .error .insufficientHolding) := by
  unfold trade
  rw [if_neg (by simp [hopen]), hbal]
  simp only [if_neg (not_not_intro hsym), if_neg (not_le.mpr hamt),
    if_neg (by decide : ¬("sell" = "buy")), if_pos rfl]
  rcases hhold with h | ⟨held, h, hlt⟩
  · simp [h]
  · simp [h, hlt]

unseal Rat.add Rat.mul in
/-- Witness for C9: selling 3 BTC while holding 2 is rejected and the state
is unchanged. -/
theorem trade_sell_insufficient_witness :
    (⟨true, ["BTC"], fun _ => 100⟩ : MarketView).is_open = true ∧
    lookupKey (⟨[("alice", 50)], [("alice", "BTC", 2)], []⟩ : TradeState).users "alice" = some (50 : ℚ) ∧
    pyUpper "btc" ∈ (⟨true, ["BTC"], fun _ => 100⟩ : MarketView).symbols ∧
    (0 : ℚ) < 3 ∧
    lookupHolding (⟨[("alice", 50)], [("alice", "BTC", 2)], []⟩ : TradeState).holdings
      "alice" (pyUpper "btc") = some (2 : ℚ) ∧
    (2 : ℚ) < 3 ∧
    trade ⟨true, ["BTC"], fun _ => 100⟩ ⟨[("alice", 50)], [("alice", "BTC", 2)], []⟩
        "alice" "btc" 3 none "sell"
      = (⟨[("alice", 50)], [("alice", "BTC", 2)], []⟩, .error .insufficientHolding) :=
  ⟨rfl, by decide, by decide, by decide, by decide, by decide,
   trade_sell_insufficient ⟨true, ["BTC"], fun _ => 100⟩
     ⟨[("alice", 50)], [("alice", "BTC", 2)], []⟩ "alice" "btc" 3 none 50
     rfl (by decide) (by decide) (by decide) (Or.inr ⟨2, by decide, by decide⟩)⟩

/-- C1 (amended): for a buy request admitted to the balance check, the
estimated cost is `est_price * amount * 1.001` where `est_price` is the
supplied limit price if it is present AND nonzero (Python truthiness),
else the market price; if `balance < cost` the request is rejected and the
rejection reports the estimated cost itself (the "Need {cost}" message),
not the balance shortfall; otherwise the balance check passes. -/
theorem trade_buy_balance_check (mkt : MarketView) (st : TradeState)
    (uid sym0 : String) (amount : ℚ) (price : Option ℚ) (bal : ℚ)
    (hopen : mkt.is_open = true)
    (hbal : lookupKey st.users uid = some bal)
    (hsym : pyUpper sym0 ∈ mkt.symbols)
    (hamt : 0 < amount) :
    (estCost price (mkt.prices (pyUpper sym0)) amount
      = estPrice price (mkt.prices (pyUpper sym0)) * amount * mkRat 1001 1000) ∧
    ((price = none ∨ price = some 0) →
      estPrice price (mkt.prices (pyUpper sym0)) = mkt.prices (pyUpper sym0)) ∧
    (∀ p, price = some p → p ≠ 0 →
      estPrice price (mkt.prices (pyUpper sym0)) = p) ∧
    (bal < estCost price (mkt.prices (pyUpper sym0)) amount →
      trade mkt st uid sym0 amount price "buy"
        = (st, .error (.insufficientBalance
            (estCost price (mkt.prices (pyUpper sym0)) amount)))) ∧
    (¬ bal < estCost price (mkt.prices (pyUpper sym0)) amount →
      (trade mkt st uid sym0 amount price "buy").2 = .ok ()) := by
  refine ⟨rfl, ?_, ?_, ?_, ?_⟩
  · rintro (rfl | rfl) <;> simp [estPrice]
  · rintro p rfl hp
    simp [estPrice, hp]
  · intro hlt
    unfold trade
    rw [if_neg (by simp [hopen]), hbal]
    simp [if_neg (not_not_intro hsym), if_neg (not_le.mpr hamt), hlt]
  · intro hge
    unfold trade
    rw [if_neg (by simp [hopen]), hbal]
    simp [if_neg (not_not_intro hsym), if_neg (not_le.mpr hamt), hge]

unseal Rat.mul Rat.add in
/-- Witness for C1 (amended): buying 1 BTC at market price 100 with
balance 50 is rejected, reporting the estimated cost. -/
theorem trade_buy_balance_check_witness :
    (⟨true, ["BTC"], fun _ => 100⟩ : MarketView).is_open = true ∧
    lookupKey (⟨[("alice", 50)], [], []⟩ : TradeState).users "alice" = some (50 : ℚ) ∧
    pyUpper "btc" ∈ (⟨true, ["BTC"], fun _ => 100⟩ : MarketView).symbols ∧
    (0 : ℚ) < 1 ∧
    (50 : ℚ) < estCost none ((⟨true, ["BTC"], fun _ => 100⟩ : MarketView).prices (pyUpper "btc")) 1 ∧
    trade ⟨true, ["BTC"], fun _ => 100⟩ ⟨[("alice", 50)], [], []⟩ "alice" "btc" 1 none "buy"
      = (⟨[("alice", 50)], [], []⟩, .error (.insufficientBalance
          (estCost none ((⟨true, ["BTC"], fun _ => 100⟩ : MarketView).prices (pyUpper "btc")) 1))) :=
  ⟨rfl, by decide, by decide, by decide, by decide,
   (trade_buy_balance_check ⟨true, ["BTC"], fun _ => 100⟩ ⟨[("alice", 50)], [], []⟩
      "alice" "btc" 1 none 50 rfl (by decide) (by decide) (by decide)).2.2.2.1
     (by decide)⟩

unseal Rat.mul Rat.add Rat.sub in
/-- Counterexample to C1 as stated.  (i) With a supplied limit price of 0
(present, so the claim's reference price is 0 and its estimated cost is 0,
not exceeding the balance 50, hence by the claim the balance check should
pass), the gate nevertheless rejects with insufficient balance computed
from the market price.  (ii) The number the rejection reports is the
estimated cost 200.2, which differs from the shortfall cost - balance. -/
theorem trade_buy_balance_check_cex :
    (refPriceSpec (some 0) 100 * 1 * mkRat 1001 1000 = 0 ∧
     ¬ ((50 : ℚ) < refPriceSpec (some 0) 100 * 1 * mkRat 1001 1000) ∧
     (trade ⟨true, ["BTC"], fun _ => 100⟩ ⟨[("alice", 50)], [], []⟩
         "alice" "BTC" 1 (some 0) "buy").2
       = .error (.insufficientBalance (mkRat 1001 10))) ∧
    ((trade ⟨true, ["BTC"], fun _ => 100⟩ ⟨[("alice", 50)], [], []⟩
         "alice" "BTC" 2 none "buy").2
       = .error (.insufficientBalance (mkRat 2002 10)) ∧
     mkRat 2002 10 ≠ mkRat 2002 10 - 50) :=
  ⟨⟨by decide, by decide, by decide⟩, by decide, by decide⟩

/-- C3: `compute_leaderboard` returns entries sorted by total descending
with ties broken by ascending user_id, and the result is the clamped-top_n
truncation of the full sorted list (in particular its length is at most the
clamped top_n); the order is fully deterministic because the computation is
a function of its inputs. -/
theorem compute_leaderboard_sorted (users : List (String × ℚ))
    (holdings : List (String × String × ℚ)) (prices : List (String × ℚ))
    (top_n : ℤ) :
    List.Sorted entryLE (compute_leaderboard users holdings prices top_n) ∧
    (compute_leaderboard users holdings prices top_n).length ≤ (clampTopN top_n).toNat ∧
    compute_leaderboard users holdings prices top_n
      = (compute_leaderboard users holdings prices 50).take (clampTopN top_n).toNat := by
  refine ⟨?_, ?_, ?_⟩
  · unfold compute_leaderboard
    have h1 : List.Sorted entryLE
        (((holdings.foldl (processHolding prices) (seedUsers users)).map Prod.snd).insertionSort entryLE) :=
      List.sorted_insertionSort entryLE _
    apply List.pairwise_map.mpr
    exact (List.Pairwise.sublist (List.take_sublist _ _) h1).imp (fun hab => hab)
  · unfold compute_leaderboard
    simp only [List.length_map, List.length_take]
    exact min_le_left _ _
  · unfold compute_leaderboard
    have h50 : clampTopN 50 = 50 := by decide
    rw [h50]
    rw [← List.map_take, List.take_take]
    have hle : (clampTopN top_n).toNat ≤ (50 : ℤ).toNat := by
      unfold clampTopN
      omega
    rw [Nat.min_eq_left hle]

/-- C4: a holding row of a known user, with quantity above the dust
threshold and a symbol absent from the price map, leaves the user's
holdings_value unchanged (the row contributes quantity × 0 = 0) and adds
the symbol to the user's missing_symbols; and every entry returned by
`compute_leaderboard` carries its missing_symbols as a sorted sequence. -/
theorem compute_leaderboard_missing :
    (∀ (prices : List (String × ℚ)) (m : UserMap) (uid sym : String) (qty : ℚ)
        (e : LEntry),
      lookupKey m uid = some e →
      ¬ (qty ≤ 0 ∨ pyAbs qty ≤ dustEps) →
      lookupKey prices sym = none →
      lookupKey (processHolding prices m (uid, sym, qty)) uid
        = some { user_id := e.user_id, balance := e.balance
                 holdings_value := e.holdings_value + qty * 0
                 total := e.balance + (e.holdings_value + qty * 0)
                 missing_symbols := addMissing e.missing_symbols sym } ∧
      e.holdings_value + qty * 0 = e.holdings_value ∧
      sym ∈ addMissing e.missing_symbols sym) ∧
    (∀ (users : List (String × ℚ)) (holdings : List (String × String × ℚ))
        (prices : List (String × ℚ)) (top_n : ℤ) (e : LEntry),
      e ∈ compute_leaderboard users holdings prices top_n →
      List.Sorted (· ≤ ·) e.missing_symbols) := by
  constructor
  · intro prices m uid sym qty e he hd hp
    refine ⟨?_, by rw [mul_zero, add_zero], mem_addMissing_self _ _⟩
    simp only [processHolding, he, hp, if_neg hd]
    rw [lookupKey_dictSet, if_pos rfl]
  · intro users holdings prices top_n e he
    unfold compute_leaderboard at he
    rcases List.mem_map.mp he with ⟨e', -, rfl⟩
    exact List.sorted_insertionSort _ _

unseal Rat.add Rat.mul in
/-- Witness for C4: a 1-BTC holding of a known user with an empty price map
contributes 0 and records BTC as missing; the returned entry lists BTC in
sorted missing_symbols. -/
theorem compute_leaderboard_missing_witness :
    lookupKey [("alice", (⟨"alice", 1000, 0, 1000, []⟩ : LEntry))] "alice"
      = some ⟨"alice", 1000, 0, 1000, []⟩ ∧
    ¬ ((1 : ℚ) ≤ 0 ∨ pyAbs 1 ≤ dustEps) ∧
    lookupKey ([] : List (String × ℚ)) "BTC" = none ∧
    (lookupKey (processHolding []
        [("alice", ⟨"alice", 1000, 0, 1000, []⟩)] ("alice", "BTC", 1)) "alice"
      = some { user_id := "alice", balance := 1000, holdings_value := (0 : ℚ) + 1 * 0
               total := (1000 : ℚ) + (0 + 1 * 0), missing_symbols := addMissing [] "BTC" } ∧
     (0 : ℚ) + 1 * 0 = 0 ∧ "BTC" ∈ addMissing [] "BTC") ∧
    ((⟨"alice", 1000, 0, 1000, ["BTC"]⟩ : LEntry) ∈
      compute_leaderboard [("alice", 1000)] [("alice", "BTC", 1)] [] 10 ∧
     List.Sorted (· ≤ ·) (⟨"alice", 1000, 0, 1000, ["BTC"]⟩ : LEntry).missing_symbols) :=
  ⟨by decide, by decide, rfl,
   compute_leaderboard_missing.1 [] [("alice", ⟨"alice", 1000, 0, 1000, []⟩)] "alice" "BTC" 1
     ⟨"alice", 1000, 0, 1000, []⟩ (by decide) (by decide) rfl,
   by decide,
   compute_leaderboard_missing.2 [("alice", 1000)] [("alice", "BTC", 1)] [] 10
     ⟨"alice", 1000, 0, 1000, ["BTC"]⟩ (by decide)⟩

/-- C5: a holding row whose quantity is non-positive or within 0.0001 of
zero is skipped entirely (the map is unchanged, so it contributes no value
and no missing-symbol bookkeeping); consequently an entry of the returned
leaderboard none of whose holding rows survive the filter has total equal
to its cash balance and holdings_value 0. -/
theorem compute_leaderboard_dust :
    (∀ (prices : List (String × ℚ)) (m : UserMap) (row : String × String × ℚ),
      row.2.2 ≤ 0 ∨ pyAbs row.2.2 ≤ dustEps → processHolding prices m row = m) ∧
    (∀ (users : List (String × ℚ)) (holdings : List (String × String × ℚ))
        (prices : List (String × ℚ)) (top_n : ℤ) (e : LEntry),
      e ∈ compute_leaderboard users holdings prices top_n →
      (∀ row ∈ holdings, row.1 = e.user_id →
        row.2.2 ≤ 0 ∨ pyAbs row.2.2 ≤ dustEps) →
      e.total = e.balance ∧ e.holdings_value = 0) := by
  constructor
  · exact fun prices m row h => processHolding_dust prices m row h
  · intro users holdings prices top_n e he hd
    unfold compute_leaderboard at he
    rcases List.mem_map.mp he with ⟨e', he', rfl⟩
    have hmem : e' ∈ ((holdings.foldl (processHolding prices) (seedUsers users)).map Prod.snd) :=
      (List.mem_insertionSort entryLE).mp (List.mem_of_mem_take he')
    rcases List.mem_map.mp hmem with ⟨p, hp, rfl⟩
    have huid : p.2.user_id = p.1 :=
      foldl_invariant (fun m : UserMap => ∀ q ∈ m, q.2.user_id = q.1)
        (processHolding prices) holdings (seedUsers users)
        (seedUsers_userid users)
        (fun s x _ hs => processHolding_userid prices s x hs) p hp
    have hnodup : (((holdings.foldl (processHolding prices) (seedUsers users))).map Prod.fst).Nodup :=
      foldl_invariant (fun m : UserMap => (m.map Prod.fst).Nodup)
        (processHolding prices) holdings (seedUsers users)
        (seedUsers_nodup_keys users)
        (fun s x _ hs => processHolding_nodup_keys prices s x hs)
    have hlk : lookupKey (holdings.foldl (processHolding prices) (seedUsers users)) p.1 = some p.2 :=
      lookupKey_of_mem_nodup hnodup hp
    have hd' : ∀ row ∈ holdings, row.1 = p.1 →
        row.2.2 ≤ 0 ∨ pyAbs row.2.2 ≤ dustEps := by
      intro row hr hru
      refine hd row hr ?_
      show row.1 = p.2.user_id
      rw [huid]
      exact hru
    have hconst : lookupKey (holdings.foldl (processHolding prices) (seedUsers users)) p.1
        = lookupKey (seedUsers users) p.1 :=
      foldl_processHolding_lookup prices holdings (seedUsers users) p.1 hd'
    have hseed : p.2.total = p.2.balance ∧ p.2.holdings_value = 0 :=
      seedUsers_lookup_total users p.1 p.2 (hconst ▸ hlk)
    exact hseed

unseal Rat.add Rat.mul in
/-- Witness for C5: a 0.00005 holding (below the 0.0001 epsilon) is
skipped, and the user's leaderboard total equals their cash balance. -/
theorem compute_leaderboard_dust_witness :
    ((mkRat 1 20000 ≤ 0 ∨ pyAbs (mkRat 1 20000) ≤ dustEps) ∧
     processHolding [] [("alice", (⟨"alice", 1000, 0, 1000, []⟩ : LEntry))]
         ("alice", "BTC", mkRat 1 20000)
       = [("alice", ⟨"alice", 1000, 0, 1000, []⟩)]) ∧
    ((⟨"alice", 1000, 0, 1000, []⟩ : LEntry) ∈
       compute_leaderboard [("alice", 1000)] [("alice", "BTC", mkRat 1 20000)] [] 10 ∧
     (∀ row ∈ [("alice", "BTC", mkRat 1 20000)],
        row.1 = (⟨"alice", 1000, 0, 1000, []⟩ : LEntry).user_id →
        row.2.2 ≤ 0 ∨ pyAbs row.2.2 ≤ dustEps) ∧
     ((⟨"alice", 1000, 0, 1000, []⟩ : LEntry).total
        = (⟨"alice", 1000, 0, 1000, []⟩ : LEntry).balance ∧
      (⟨"alice", 1000, 0, 1000, []⟩ : LEntry).holdings_value = 0)) :=
  ⟨⟨by decide, compute_leaderboard_dust.1 [] _ _ (by decide)⟩,
   by decide, by decide,
   compute_leaderboard_dust.2 [("alice", 1000)] [("alice", "BTC", mkRat 1 20000)] [] 10
     ⟨"alice", 1000, 0, 1000, []⟩ (by decide) (by decide)⟩
